import Mathlib

/-!
Verification development for the s3glob repository (glob-driven S3 lister and
downloader).  The repository is shallowly embedded: strings are modelled as
their character sequences, byte positions of the Rust source become character
positions (all inputs used in the theorems are ASCII, where the two coincide),
asynchronous store calls become pure functions over a finite key universe
(modelled from MockS3Engine in glob_matcher/engine.rs and the spec store
interface), and regex fragments produced by re_string are interpreted
denotationally by a matching function over the parsed segments.
-/

namespace S3Glob

/-- Concatenation of the images of a list under a list-valued function,
preserving order (models Rust loops that extend a vector). -/
def flatMapL (f : α → List β) : List α → List β
  | [] => []
  | a :: as => f a ++ flatMapL f as

/-- take_while_inclusive from itertools: longest run satisfying the predicate
together with the first failing element, if any. -/
def takeWhileIncl (p : Char → Bool) : List Char → List Char
  | [] => []
  | c :: rest => if p c then c :: takeWhileIncl p rest else [c]

/-- Boolean infix test: needle occurs contiguously inside hay. -/
def infixB (needle hay : List Char) : Bool :=
  (List.range (hay.length + 1)).any (fun i => needle.isPrefixOf (hay.drop i))

/-- Lexicographic order on character lists, the order Rust uses for
BTreeSet of (ASCII) strings. -/
def charsLt : List Char → List Char → Bool
  | [], [] => false
  | [], _ :: _ => true
  | _ :: _, [] => false
  | x :: xs, y :: ys => if x < y then true else if y < x then false else charsLt xs ys

/-- Lexicographic order on strings (UTF-8 byte order equals code point order). -/
def strLt (a b : String) : Bool := charsLt a.data b.data

/-- Sorted-set insertion, models BTreeSet::insert. -/
def btInsert (s : String) : List String → List String
  | [] => [s]
  | t :: rest =>
    if strLt s t then s :: t :: rest
    else if s = t then t :: rest
    else t :: btInsert s rest

/-- Sorted deduplicated list of the inputs, models collecting into a BTreeSet. -/
def sortDedup (l : List String) : List String := l.foldl (fun acc s => btInsert s acc) []

/-- Longest common prefix of two character lists. -/
def commonPre : List Char → List Char → List Char
  | a :: as, b :: bs => if a = b then a :: commonPre as bs else []
  | _, _ => []

/-- Drop the trailing run of non-slash characters: keep everything up to and
including the last slash; if there is no slash the result is empty.  This is
the `chars().rev().take_while(!= slash)` + truncate idiom of the source. -/
def trimAfterLastSlash (u : List Char) : List Char :=
  u.take (u.length - (u.reverse.takeWhile (fun c => c ≠ '/')).length)

/-- Rust regex::escape: put a backslash before every regex meta character. -/
def isRegexMeta (c : Char) : Bool :=
  c ∈ ['\\', '.', '+', '*', '?', '(', ')', '|', '[', ']', '\x7b', '\x7d', '^', '$', '#', '&', '-', '~']

/-- regex::escape on character lists. -/
def regexEscapeL : List Char → List Char
  | [] => []
  | c :: rest => if isRegexMeta c then '\\' :: c :: regexEscapeL rest else c :: regexEscapeL rest

/-- regex::escape on strings. -/
def regexEscape (s : String) : String := String.mk (regexEscapeL s.data)

/-- Interpret an escaped literal back to the literal it denotes inside a regex
(drops each backslash together with nothing, keeping the escaped character). -/
def regexUnescapeL : List Char → List Char
  | [] => []
  | '\\' :: c :: rest => c :: regexUnescapeL rest
  | c :: rest => c :: regexUnescapeL rest

/-- regex unescape on strings. -/
def regexUnescape (s : String) : String := String.mk (regexUnescapeL s.data)

/-- The glob metacharacters of the source (GLOB_CHARS in glob_matcher.rs). -/
def GLOB_CHARS : List Char := ['*', '?', '[', '\x7b']

/-- Range of characters from a to b inclusive, in code point order, skipping
invalid scalar values, as Rust char ranges do. -/
def charRange (a b : Char) : List Char :=
  (((List.range (b.toNat + 1)).drop a.toNat).filter (fun n => n.isValidChar)).map Char.ofNat

/-- Items of a regex character class body: a dash between two characters forms
a range, a leading or trailing dash is literal.  Each item is a closed
code-point interval. -/
def classItems : List Char → List (Char × Char)
  | [] => []
  | a :: '-' :: b :: rest => (a, b) :: classItems rest
  | a :: rest => (a, a) :: classItems rest

/-- Whether character c is matched by the NEGATED class built from the raw
character list cs (the source emits the regex class from the raw characters
without escaping, so a dash in the middle acts as a range). -/
def negClassMatch (cs : List Char) (c : Char) : Bool :=
  !(classItems cs).any (fun it => it.1 ≤ c && c ≤ it.2)

namespace glob_matcher

/-- A single part of a glob pattern (src/glob_matcher.rs, enum Glob).
Any is a single star, question mark, or negated character class; Choice is a
literal or group of alternatives; Recursive is a double star. -/
inductive Glob where
  | Any : String → Option (List Char) → Glob
  | Choice : String → List String → Glob
  | Recursive : Glob
deriving DecidableEq, Repr

/-- prefix_join from glob_matcher.rs: drop one delimiter when the left part
ends with a slash and the right part starts with one. -/
def prefix_join (a alt : String) : String :=
  if a.data.getLast? = some '/' && alt.data.head? = some '/' then
    a ++ String.mk (alt.data.drop 1)
  else a ++ alt

/-- Glob::pattern_len (character model of the byte length of the raw text). -/
def Glob.pattern_len : Glob → Nat
  | .Any raw _ => raw.data.length
  | .Choice raw _ => raw.data.length
  | .Recursive => 2

/-- Glob::is_choice. -/
def Glob.is_choice : Glob → Bool
  | .Choice _ _ => true
  | _ => false

/-- Glob::is_negated. -/
def Glob.is_negated : Glob → Bool
  | .Any _ (some _) => true
  | _ => false

/-- Glob::combine_with: cross product of the alternatives joined with
prefix_join; the raw text of the left part is kept (the source only rewrites
the allowed list).  Only ever called with two Choice parts. -/
def Glob.combine_with : Glob → Glob → Glob
  | .Choice r1 a1, .Choice _ a2 =>
    .Choice r1 (flatMapL (fun c => a2.map (fun alt => prefix_join c alt)) a1)
  | g, _ => g

/-- Alternation body parser shared by the brace branch of both parse_pattern
versions: collects comma separated alternatives until the closing brace,
accumulating the consumed raw text; unterminated input is an error carrying
the raw text. -/
def parseBraceCore : Nat → List Char → List Char → List String → List Char →
    Except String (String × List String)
  | 0, _, _, _, _ => .error "out of fuel"
  | _ + 1, [], raw, _, _ =>
    .error ("Alternation has no closing brace (missing \x7d): " ++ String.mk raw)
  | n + 1, c :: rest, raw, alts, cur =>
    let raw' := raw ++ [c]
    if c = ',' then parseBraceCore n rest raw' (alts ++ [String.mk cur]) []
    else if c = '\x7d' then .ok (String.mk raw', alts ++ [String.mk cur])
    else parseBraceCore n rest raw' alts (cur ++ [c])

/-- Character class parser of the OLD parse_pattern (glob_matcher.rs): no
range support; a closing bracket directly after the opening bracket (or after
the negation bang) is a literal member. -/
def parseBracketOldF : Nat → List Char → List Char → List Char → Bool → Except String Glob
  | 0, _, _, _, _ => .error "out of fuel"
  | _ + 1, [], raw, _, _ =>
    .error ("Alternation has no closing bracket (missing ]): " ++ String.mk raw)
  | n + 1, c :: rest, raw, alts, neg =>
    let raw' := raw ++ [c]
    if c = ']' ∧ (raw'.length = 2 ∨ (neg ∧ raw'.length = 3)) then
      parseBracketOldF n rest raw' (alts ++ [c]) neg
    else if c = '!' ∧ raw'.length = 2 then
      parseBracketOldF n rest raw' alts true
    else if c = ']' then
      .ok (if neg then .Any (String.mk raw') (some alts)
           else .Choice (String.mk raw') (alts.map (fun ch => String.mk [ch])))
    else parseBracketOldF n rest raw' (alts ++ [c]) neg

/-- parse_pattern of glob_matcher.rs: turn the text starting at a glob
metacharacter into one segment. -/
def parse_pattern (cs : List Char) : Except String Glob :=
  match cs with
  | [] => .error "internal error: empty pattern part"
  | '?' :: _ => .ok (.Any "?" none)
  | '*' :: rest => if rest.head? = some '*' then .ok .Recursive else .ok (.Any "*" none)
  | '\x7b' :: rest =>
    (parseBraceCore (rest.length + 1) rest ['\x7b'] [] []).map (fun pr => .Choice pr.1 pr.2)
  | '[' :: rest => parseBracketOldF (rest.length + 1) rest ['['] [] false
  | _ => .error "internal error: unexpected pattern character"

/-- The segment-splitting loop of S3GlobMatcher::parse: alternate literal runs
(as one-choice parts) with parse_pattern segments. -/
def parsePartsF : Nat → List Char → Except String (List Glob)
  | 0, _ => .error "out of fuel"
  | _ + 1, [] => .ok []
  | n + 1, cs =>
    let lit := cs.takeWhile (fun c => ¬ GLOB_CHARS.contains c)
    let rest := cs.drop lit.length
    if rest.isEmpty then .ok [.Choice (String.mk lit) [String.mk lit]]
    else
      match parse_pattern rest with
      | .error e => .error e
      | .ok g =>
        match parsePartsF n (rest.drop g.pattern_len) with
        | .error e => .error e
        | .ok parts =>
          .ok (if lit.isEmpty then g :: parts
               else .Choice (String.mk lit) [String.mk lit] :: g :: parts)

/-- The merge pass of S3GlobMatcher::parse: adjacent Choice parts are merged
by combine_with, left to right. -/
def mergePartsF : Nat → List Glob → List Glob
  | 0, l => l
  | _ + 1, [] => []
  | _ + 1, [g] => [g]
  | n + 1, g1 :: g2 :: rest =>
    if g1.is_choice && g2.is_choice then mergePartsF n (g1.combine_with g2 :: rest)
    else g1 :: mergePartsF n (g2 :: rest)

/-- S3GlobMatcher (raw pattern, delimiter, parsed parts).  The globset matcher
field of the source is modelled separately (namespace globset). -/
structure S3GlobMatcher where
  raw : String
  delimiter : Char
  parts : List Glob
deriving DecidableEq, Repr

/-- S3GlobMatcher::parse (the globset compilation step of the source can also
fail; those failures are not modelled, all patterns used here compile). -/
def S3GlobMatcher.parse (raw : String) (delim : Char) : Except String S3GlobMatcher :=
  match parsePartsF (raw.data.length + 1) raw.data with
  | .error e => .error e
  | .ok ps => .ok ⟨raw, delim, mergePartsF (ps.length + 1) ps⟩

/-- Denotational semantics of the anchored reference regex of spec section 3,
concatenating the re_string fragment of each segment (glob_matcher.rs,
Glob::re_string): a Choice is an escaped alternation of its literals, a star
is any run without the delimiter, a question mark is any character except
newline (regex dot), a negated class is the regex class of the excluded
characters, and Recursive is a run of any characters except newline.  Fuel
decreases on every call; segments + input length + 1 suffices. -/
def segsMatchF (delim : Char) : Nat → List Glob → List Char → Bool
  | 0, _, _ => false
  | _ + 1, [], s => s.isEmpty
  | n + 1, .Choice _ allowed :: rest, s =>
    allowed.any (fun a => a.data.isPrefixOf s && segsMatchF delim n rest (s.drop a.data.length))
  | n + 1, .Any _ (some ex) :: rest, s =>
    match s with
    | [] => false
    | c :: s' => negClassMatch ex c && segsMatchF delim n rest s'
  | n + 1, .Any r none :: rest, s =>
    if r = "?" then
      match s with
      | [] => false
      | c :: s' => (c ≠ '\n') && segsMatchF delim n rest s'
    else if r = "*" then
      segsMatchF delim n rest s ||
        (match s with
         | [] => false
         | c :: s' => (c ≠ delim) && segsMatchF delim n (.Any r none :: rest) s')
    else false
  | n + 1, .Recursive :: rest, s =>
    segsMatchF delim n rest s ||
      (match s with
       | [] => false
       | c :: s' => (c ≠ '\n') && segsMatchF delim n (.Recursive :: rest) s')

/-- Anchored match of a segment list against a whole key. -/
def segsMatch (delim : Char) (segs : List Glob) (s : List Char) : Bool :=
  segsMatchF delim (segs.length + s.length + 1) segs s

/-- Reference-regex verdict of a parsed matcher on a key. -/
def S3GlobMatcher.refIsMatch (m : S3GlobMatcher) (key : String) : Bool :=
  segsMatch m.delimiter m.parts key.data

/-- Parse a raw pattern with delimiter slash and give the reference-regex
verdict on a key; none when the pattern does not parse. -/
def refIsMatchRaw (raw key : String) : Option Bool :=
  match S3GlobMatcher.parse raw '/' with
  | .ok m => some (m.refIsMatch key)
  | .error _ => none

/-- One-level extension of a key under a delimited listing: the part of the
key after the queried p, cut just after the first delimiter when one occurs
(a common prefix of the listing), otherwise the whole key (a direct object).
Modelled from MockS3Engine::scan_prefixes_inner (glob_matcher/engine.rs). -/
def extendOne (p : String) (delim : Char) (k : String) : String :=
  let rest := k.data.drop p.data.length
  let upto := rest.takeWhile (fun c => c ≠ delim)
  if upto.length = rest.length then k else String.mk (p.data ++ upto ++ [delim])

/-- Engine::scan_prefixes over a finite key universe: delimited listing under
p, returning the sorted deduplicated one-level extensions (real S3 returns
common prefixes sorted and unique). -/
def scan_prefixes (store : List String) (p : String) (delim : Char) : List String :=
  sortDedup ((store.filter (fun k => p.data.isPrefixOf k.data)).map (extendOne p delim))

/-- Engine::check_prefixes over a finite key universe: retain, in order, the
candidates for which at least one key exists under them (spec 4.3 existence
check; MockS3Engine keeps a candidate when a listing under it is nonempty). -/
def check_prefixes (store : List String) (ps : List String) : List String :=
  ps.filter (fun p => store.any (fun k => p.data.isPrefixOf k.data))

/-- Planner state threaded through the find_prefixes loop.  sofar is the
semantic counterpart of regex_so_far (the segments whose fragments have been
appended so far); calls records the delimited scan_prefixes calls issued;
complete is the PlanResult is_complete flag of the spec (modelled from spec
4.3: true unless planning halted at a Recursive segment). -/
structure PlanState where
  pfxs : List String
  sofar : List Glob
  calls : List (String × String)
  complete : Bool
deriving DecidableEq, Repr

/-- Does the regex `^` ++ fragments(segs) match the string p (unanchored at
the end, as the filter regexes built inside find_prefixes are): some prefix
of p is in the language of the fragments. -/
def startMatch (delim : Char) (segs : List Glob) (p : String) : Bool :=
  (List.range (p.data.length + 1)).any (fun n => segsMatch delim segs (p.data.take n))

/-- The filters / appends construction of the non-simple Choice branch of
find_prefixes: walk the alternatives, splitting each at the first delimiter;
both sets are BTreeSets of (escaped, where the source escapes) strings. -/
def buildFA (delim : Char) (allowed : List String) : List String × List String :=
  allowed.foldl
    (fun fa choice =>
      if choice.data.head? = some delim then
        let c := String.mk (choice.data.drop 1)
        let fa' := if c.data.isEmpty then fa else (fa.1, btInsert c fa.2)
        (btInsert (String.mk [delim]) fa'.1, fa'.2)
      else if choice.data.contains delim then
        let upToDelim := String.mk (takeWhileIncl (fun c => c ≠ delim) choice.data)
        let afterDelim := String.mk (choice.data.drop upToDelim.data.length)
        let fa' := (btInsert (regexEscape upToDelim) fa.1, fa.2)
        if afterDelim.data.isEmpty then fa'
        else (fa'.1, btInsert (regexEscape afterDelim) fa'.2)
      else (btInsert (regexEscape choice) fa.1, fa.2))
    ([], [])

/-- One iteration of the find_prefixes loop for an Any segment (a star, a
question mark, or a negated class): scan unless the previous part was also an
Any or this is the last part; then, for a negated class, filter the working
set by the regex built so far extended with this fragment. -/
def anyStep (delim : Char) (store : List String) (part : Glob) (prev : Option Glob)
    (isLast : Bool) (st : PlanState) : PlanState :=
  let prevIsAny := match prev with | some (.Any _ _) => true | _ => false
  let scanMightHelp := !prevIsAny && !isLast
  let st1 :=
    if scanMightHelp then
      { st with
        pfxs := flatMapL (fun p => scan_prefixes store p delim) st.pfxs
        calls := st.calls ++ st.pfxs.map (fun p => (p, String.mk [delim])) }
    else st
  if part.is_negated then
    { st1 with pfxs := st1.pfxs.filter (fun p => startMatch delim (st.sofar ++ [part]) p) }
  else st1

/-- One iteration of the find_prefixes loop for a Choice segment: with a
single working prefix the alternatives are appended and existence-checked;
otherwise the filters and appends are computed and each prefix is either
retained, dropped, or extended by the appends (which, in the source, inserts
the regex-escaped text), with an existence check when appends occurred. -/
def choiceStep (delim : Char) (store : List String) (part : Glob) (allowed : List String)
    (st : PlanState) : PlanState :=
  if st.pfxs.length = 1 then
    let news := flatMapL (fun p => allowed.map (fun alt => prefix_join p alt)) st.pfxs
    { st with pfxs := check_prefixes store news }
  else
    let fa := buildFA delim allowed
    let joined := String.intercalate "|" fa.1
    let filterSegs := st.sofar ++ [Glob.Choice "" (fa.1.map regexUnescape)]
    let appendSegs := st.sofar ++ [part]
    let news :=
      if joined.data.isEmpty then
        flatMapL (fun p => fa.2.map (fun alt => prefix_join p alt)) st.pfxs
      else
        flatMapL
          (fun p =>
            if startMatch delim filterSegs p then
              if !fa.2.isEmpty && !startMatch delim appendSegs p then
                fa.2.map (fun alt => prefix_join p alt)
              else [p]
            else [])
          st.pfxs
    if !fa.2.isEmpty then { st with pfxs := check_prefixes store news }
    else { st with pfxs := news }

/-- Dispatch one non-Recursive segment and append its fragment to sofar. -/
def stepPart (delim : Char) (store : List String) (part : Glob) (prev : Option Glob)
    (isLast : Bool) (st : PlanState) : PlanState :=
  let st' :=
    match part with
    | .Any _ _ => anyStep delim store part prev isLast st
    | .Choice _ allowed => choiceStep delim store part allowed st
    | .Recursive => st
  { st' with sofar := st'.sofar ++ [part] }

/-- The find_prefixes loop: process segments left to right; a Recursive
segment halts immediately, marking the plan incomplete. -/
def planLoop (delim : Char) (store : List String) :
    List Glob → Option Glob → PlanState → PlanState
  | [], _, st => st
  | part :: rest, prev, st =>
    match part with
    | .Recursive => { st with complete := false }
    | _ => planLoop delim store rest (some part) (stepPart delim store part prev rest.isEmpty st)

/-- Processing a run of segments all of which are followed by further
segments (so none is last).  Used to state what find_prefixes has
accumulated when it halts at a Recursive segment. -/
def planMid (delim : Char) (store : List String) :
    List Glob → Option Glob → PlanState → PlanState
  | [], _, st => st
  | part :: rest, prev, st =>
    planMid delim store rest (some part) (stepPart delim store part prev false st)

/-- Initial planner state: the single empty prefix. -/
def initState : PlanState := ⟨[""], [], [], true⟩

/-- S3GlobMatcher::find_prefixes over a finite key universe. -/
def S3GlobMatcher.find_prefixes (m : S3GlobMatcher) (store : List String) : PlanState :=
  planLoop m.delimiter store m.parts none initState

/-- Parse and plan a raw pattern over a finite key universe. -/
def planRaw (raw : String) (store : List String) : Option PlanState :=
  match S3GlobMatcher.parse raw '/' with
  | .ok m => some (m.find_prefixes store)
  | .error _ => none

end glob_matcher

namespace globset

/-- Token of the globset model: a literal character, a single star, or a
question mark.  Only the fragment of globset actually exercised by the
theorems is modelled. -/
inductive GsTok where
  | Lit : Char → GsTok
  | Star : GsTok
  | AnyChar : GsTok
deriving DecidableEq, Repr

/-- Parser of the modelled globset fragment: patterns of literals, single
stars and question marks.  Character classes, alternations, escapes and
double stars are outside the modelled fragment (none). -/
def gsParseF : Nat → List Char → Option (List GsTok)
  | 0, _ => none
  | _ + 1, [] => some []
  | n + 1, c :: rest =>
    if c = '*' then
      if rest.head? = some '*' then none
      else (gsParseF n rest).map (fun ts => GsTok.Star :: ts)
    else if c = '?' then (gsParseF n rest).map (fun ts => GsTok.AnyChar :: ts)
    else if c ∈ ['[', ']', '\x7b', '\x7d', '\\'] then none
    else (gsParseF n rest).map (fun ts => GsTok.Lit c :: ts)

/-- Matching for the modelled globset fragment with DEFAULT GlobBuilder
options: literal_separator is false, so a star matches any run of characters
(the documented example: `*.rs` matches `foo/bar.rs`), and a question mark
matches any single character (globset compiles with dot_matches_new_line). -/
def gsMatchF : Nat → List GsTok → List Char → Bool
  | 0, _, _ => false
  | _ + 1, [], s => s.isEmpty
  | n + 1, .Lit c :: rest, s =>
    match s with
    | [] => false
    | c' :: s' => (c = c') && gsMatchF n rest s'
  | n + 1, .AnyChar :: rest, s =>
    match s with
    | [] => false
    | _ :: s' => gsMatchF n rest s'
  | n + 1, .Star :: rest, s =>
    gsMatchF n rest s ||
      (match s with
       | [] => false
       | _ :: s' => gsMatchF n (.Star :: rest) s')

/-- Model of S3GlobMatcher::is_match (glob_matcher.rs lines 277-279), which
delegates to the globset matcher compiled from the raw pattern with default
options; none when the pattern is outside the modelled fragment. -/
def is_match (pat key : String) : Option Bool :=
  (gsParseF (pat.data.length + 1) pat.data).map
    (fun ts => gsMatchF (ts.length + key.data.length + 1) ts key.data)

end globset

namespace glob

/-- A single part of a glob pattern (src/glob_matcher/glob.rs, enum Glob):
like the older variant plus the SyntheticAny part. -/
inductive Glob where
  | Any : String → Option (List Char) → Glob
  | SyntheticAny : Glob
  | Choice : String → List String → Glob
  | Recursive : Glob
deriving DecidableEq, Repr

/-- Character class parser of parse_pattern in glob_matcher/glob.rs: like the
older one but with range support.  A dash that is not the first member (nor
directly after the negation bang) starts a range: the following character
closes it, the range must not be empty or inverted, and the class must not end
right after the dash.  Lengths of the raw text are in characters (bytes in the
source; identical on ASCII). -/
def parseBracketNewF : Nat → List Char → List Char → List Char → Bool → Except String Glob
  | 0, _, _, _, _ => .error "out of fuel"
  | _ + 1, [], raw, _, _ =>
    if String.mk raw = "[]" then .error "Empty character class: []"
    else .error ("Alternation has no closing bracket (missing ]): " ++ String.mk raw)
  | n + 1, c :: rest, raw, alts, neg =>
    let raw' := raw ++ [c]
    if c = '!' ∧ raw'.length = 2 then
      parseBracketNewF n rest raw' alts true
    else if c = ']' ∧ (raw'.length = 2 ∨ (neg ∧ raw'.length = 3)) then
      parseBracketNewF n rest raw' (alts ++ [c]) neg
    else if c = '-' ∧ ((¬ neg ∧ raw'.length ≠ 2) ∨ (neg ∧ raw'.length ≠ 3)) then
      match rest with
      | [] => .error ("Character class is not closed: " ++ String.mk raw')
      | nc :: rest2 =>
        if nc = ']' then .error ("Range is not closed: " ++ String.mk (raw' ++ [nc]))
        else
          match alts.getLast? with
          | none => .error "internal error: range with empty class"
          | some start =>
            let raw2 := raw' ++ [nc]
            if nc ≤ start then
              .error ("Range is invalid (end <= start): " ++ String.mk [start] ++ "-"
                ++ String.mk [nc] ++ " in " ++ String.mk raw2)
            else parseBracketNewF n rest2 raw2 (alts.dropLast ++ charRange start nc) neg
    else if c = ']' then
      .ok (if neg then .Any (String.mk raw') (some alts)
           else .Choice (String.mk raw') (alts.map (fun ch => String.mk [ch])))
    else parseBracketNewF n rest raw' (alts ++ [c]) neg

/-- parse_pattern of glob_matcher/glob.rs. -/
def parse_pattern (cs : List Char) : Except String Glob :=
  match cs with
  | [] => .error "internal error: empty pattern part"
  | '?' :: _ => .ok (.Any "?" none)
  | '*' :: rest => if rest.head? = some '*' then .ok .Recursive else .ok (.Any "*" none)
  | '\x7b' :: rest =>
    (glob_matcher.parseBraceCore (rest.length + 1) rest ['\x7b'] [] []).map
      (fun pr => .Choice pr.1 pr.2)
  | '[' :: rest => parseBracketNewF (rest.length + 1) rest ['['] [] false
  | _ => .error "internal error: unexpected pattern character"

/-- parse_pattern on a string. -/
def parse_patternS (s : String) : Except String Glob := parse_pattern s.data

/-- Does the given error result carry a message containing the given text. -/
def errContains (r : Except String Glob) (s : String) : Bool :=
  match r with
  | .error e => infixB s.data e.data
  | .ok _ => false

/-- The matching oracle restricted to a single alternation segment: the
anchored reference regex of an alternation is the escaped alternation of its
literals, so it matches exactly the keys equal to one of them.  Stated via
the shared segment semantics. -/
def choiceOracle (allowed : List String) (key : String) : Bool :=
  glob_matcher.segsMatch '/' [glob_matcher.Glob.Choice "" allowed] key.data

end glob

namespace download

/-- PathMode of src/main.rs (shared with src/download.rs). -/
inductive PathMode where
  | Abs | Absolute | G | FromFirstGlob | S | Shortest
deriving DecidableEq, Repr

/-- extract_prefix_to_strip (src/main.rs lines 802-835 and src/download.rs):
empty for absolute; the literal head of the pattern before the first glob
metacharacter, cut after its last slash when it has one, for from-first-glob;
the longest common prefix of the matched keys with the trailing run of
non-slash characters removed, for shortest. -/
def extract_prefix_to_strip (raw : String) (mode : PathMode) (keys : List String) : String :=
  match mode with
  | .Abs | .Absolute => ""
  | .FromFirstGlob | .G =>
    let u := raw.data.takeWhile (fun c => ¬ GLOB_CHARS.contains c)
    if u.contains '/' then String.mk (trimAfterLastSlash u) else String.mk u
  | .S | .Shortest =>
    match keys with
    | [] => ""
    | k0 :: rest =>
      let lcp := rest.foldl (fun acc k => commonPre acc k.data) k0.data
      String.mk (trimAfterLastSlash lcp)

/-- str::strip_prefix as used in download_object: the key with the byte
prefix removed if it starts with it; the expect in the source panics on
none. -/
def key_suffix? (pfxToStrip key : String) : Option String :=
  if pfxToStrip.data.isPrefixOf key.data then
    some (String.mk (key.data.drop pfxToStrip.data.length))
  else none

/-- Downloaded-object notification (enum Notification of src/main.rs and
src/download.rs). -/
inductive Notification where
  | ObjectDownloaded : String → Notification
  | BytesDownloaded : Nat → Notification
deriving DecidableEq, Repr

/-- The Downloader fields relevant to path computation and notifications. -/
structure Downloader where
  prefix_to_strip : String
  flatten : Bool
  base_path : String
  obj_id : Nat
deriving DecidableEq, Repr

/-- Split a path at the last slash into directory part (keeping the slash)
and file name. -/
def splitLastSlash (p : List Char) : List Char × List Char :=
  let nameRev := p.reverse.takeWhile (fun c => c ≠ '/')
  (p.take (p.length - nameRev.length), nameRev.reverse)

/-- Rust Path::file_stem semantics on a file name: the part before the last
dot, unless there is no dot or the only dot is the leading character. -/
def file_stem (name : List Char) : List Char :=
  let extRev := name.reverse.takeWhile (fun c => c ≠ '.')
  if extRev.length = name.length then name
  else
    let stemRev := name.reverse.drop (extRev.length + 1)
    if stemRev.isEmpty then name else stemRev.reverse

/-- Rust Path::with_extension for a nonempty replacement extension on a path
whose final component is a nonempty file name: the current extension is
dropped and a dot plus the new extension appended to the stem. -/
def with_extension (p : String) (ext : String) : String :=
  let dn := splitLastSlash p.data
  String.mk (dn.1 ++ file_stem dn.2) ++ (if ext.data.isEmpty then "" else "." ++ ext)

/-- The temporary file path of download_object:
path.with_extension(".s3glob-tmp-" ++ id). -/
def temp_path (p : String) (id : Nat) : String :=
  with_extension p (".s3glob-tmp-" ++ toString id)

/-- add_atomic on a counter: fetch_add the value and read the result. -/
def add_atomic (ctr v : Nat) : Nat × Nat := (ctr + v, ctr + v)

/-- Object ids handed out by n successive Downloader::fresh calls on clones
sharing the counter that starts at ctr (each call is add_atomic by one). -/
def freshIds (ctr : Nat) : Nat → List Nat
  | 0 => []
  | n + 1 =>
    let r := add_atomic ctr 1
    r.2 :: freshIds r.1 n

/-- Outcome environment for one download_object run: success of each
fallible step in source order, the body chunks that arrive (size and whether
the file write succeeds), and whether the stream errors after them. -/
structure DlEnv where
  mkdirOk : Bool
  getOk : Bool
  createOk : Bool
  chunks : List (Nat × Bool)
  streamErr : Bool
  flushOk : Bool
  renameOk : Bool
deriving DecidableEq, Repr

/-- The chunk loop of download_object: write each chunk, stopping at the
first failed write; returns the BytesDownloaded notifications sent and
whether all writes succeeded. -/
def writeChunks : List (Nat × Bool) → List Notification × Bool
  | [] => ([], true)
  | (sz, ok) :: rest =>
    if ok then
      let r := writeChunks rest
      (.BytesDownloaded sz :: r.1, r.2)
    else ([], false)

/-- PathBuf::join for a relative right-hand side. -/
def joinPath (base rel : String) : String := base ++ "/" ++ rel

/-- The notification sequence of one Downloader::download_object run, in
source order: create the directory, GET the object, create the temp file,
stream chunks into it emitting BytesDownloaded, flush, rename the temp file
onto the final path, and only then emit ObjectDownloaded; every failure
returns with only the notifications already sent. -/
def runNotifs (env : DlEnv) (path : String) : List Notification :=
  if ¬ env.mkdirOk then []
  else if ¬ env.getOk then []
  else if ¬ env.createOk then []
  else
    let wr := writeChunks env.chunks
    if ¬ wr.2 then wr.1
    else if env.streamErr then wr.1
    else if ¬ env.flushOk then wr.1
    else if ¬ env.renameOk then wr.1
    else wr.1 ++ [.ObjectDownloaded path]

/-- Downloader::download_object (src/main.rs lines 727-799, src/download.rs
lines 145-217): strip the prefix (none models the expect panic), optionally
flatten, build the local path, then run the notification sequence. -/
def download_object (dl : Downloader) (key : String) (env : DlEnv) :
    Option (List Notification) :=
  match key_suffix? dl.prefix_to_strip key with
  | none => none
  | some rel0 =>
    let rel := if dl.flatten then
        String.mk (rel0.data.map (fun c => if c = '/' then '-' else c))
      else rel0
    some (runNotifs env (joinPath dl.base_path rel))

/-- Whether a notification is an ObjectDownloaded. -/
def isObjDl : Notification → Bool
  | .ObjectDownloaded _ => true
  | .BytesDownloaded _ => false

/-- The four download pools of DlPools, named as the struct fields. -/
inductive PoolKind where
  | two_hundred_kb | one_mb | ten_mb | more
deriving DecidableEq, Repr

/-- DlPools::download_object size routing: which pool channel receives an
object of the given size. -/
def DlPools.download_object (size : Int) : PoolKind :=
  if size < 200000 then .two_hundred_kb
  else if size < 1000000 then .one_mb
  else if size < 10000000 then .ten_mb
  else .more

/-- Semaphore capacity that DlPools::new gives each pool:
max_parallelism.min(pool default). -/
def DlPools.cap (k : PoolKind) (max_parallelism : Nat) : Nat :=
  match k with
  | .two_hundred_kb => min max_parallelism 500
  | .one_mb => min max_parallelism 50
  | .ten_mb => min max_parallelism 10
  | .more => min max_parallelism 5

end download

namespace mainmod

/-- The S3Object fields used by output formatting (last_modified rendered as
a string; human size formatting is an external collaborator passed in). -/
structure S3Object where
  key : String
  size : Int
  last_modified : String
deriving DecidableEq, Repr

/-- The five known format variables. -/
inductive FmtVar where
  | key | uri | size_bytes | size_human | last_modified
deriving DecidableEq, Repr

/-- A compiled format token (enum FormatToken of src/main.rs). -/
inductive FormatToken where
  | Literal : String → FormatToken
  | Variable : FmtVar → FormatToken
deriving DecidableEq, Repr

/-- Name lookup for a placeholder. -/
def knownVar : String → Option FmtVar
  | "key" => some .key
  | "uri" => some .uri
  | "size_bytes" => some .size_bytes
  | "size_human" => some .size_human
  | "last_modified" => some .last_modified
  | _ => none

/-- Read a placeholder name: characters up to the closing brace, which is
consumed; at end of input the name simply ends (the source loop runs off the
iterator without error). -/
def splitVar : List Char → List Char × List Char
  | [] => ([], [])
  | c :: rest =>
    if c = '\x7d' then ([], rest)
    else
      let r := splitVar rest
      (c :: r.1, r.2)

/-- compile_format (src/main.rs lines 925-964): scan the format string; an
opening brace flushes the pending literal and reads a placeholder name, which
must be one of the five known variables; any other name is an error naming
the variable. -/
def compileCharsF : Nat → List Char → List Char → Except String (List FormatToken)
  | 0, _, _ => .error "out of fuel"
  | _ + 1, [], lit => .ok (if lit.isEmpty then [] else [.Literal (String.mk lit)])
  | n + 1, c :: rest, lit =>
    if c = '\x7b' then
      let toks : List FormatToken := if lit.isEmpty then [] else [.Literal (String.mk lit)]
      let vr := splitVar rest
      match knownVar (String.mk vr.1) with
      | some v =>
        match compileCharsF n vr.2 [] with
        | .ok tail => .ok (toks ++ .Variable v :: tail)
        | .error e => .error e
      | none => .error ("unknown variable: " ++ String.mk vr.1)
    else compileCharsF n rest (lit ++ [c])

/-- compile_format on a string. -/
def compile_format (f : String) : Except String (List FormatToken) :=
  compileCharsF (f.data.length + 1) f.data []

/-- The placeholder names read by the compile_format scan, in order. -/
def placeholderNamesF : Nat → List Char → List String
  | 0, _ => []
  | _ + 1, [] => []
  | n + 1, c :: rest =>
    if c = '\x7b' then
      let vr := splitVar rest
      String.mk vr.1 :: placeholderNamesF n vr.2
    else placeholderNamesF n rest

/-- Placeholder names of a format string. -/
def placeholder_names (f : String) : List String :=
  placeholderNamesF (f.data.length + 1) f.data

/-- Render one variable; the human size and timestamp renderings are external
collaborators (spec section 1) passed as functions. -/
def renderVar (sizeHuman : Int → String) (bucket : String) (obj : S3Object) :
    FmtVar → String
  | .key => obj.key
  | .uri => "s3://" ++ bucket ++ "/" ++ obj.key
  | .size_bytes => toString obj.size
  | .size_human => sizeHuman obj.size
  | .last_modified => obj.last_modified

/-- format_user (src/main.rs): concatenate the rendered tokens. -/
def format_user (sizeHuman : Int → String) (bucket : String) (obj : S3Object)
    (tokens : List FormatToken) : String :=
  tokens.foldl
    (fun acc t =>
      match t with
      | .Literal l => acc ++ l
      | .Variable v => acc ++ renderVar sizeHuman bucket obj v)
    ""

end mainmod

/-! ## Theorems -/

/-- A literal consumes the whole remainder exactly when it equals it. -/
theorem isPrefixOf_and_drop_nil (a k : List Char) :
    a.isPrefixOf k = true ∧ k.drop a.length = [] ↔ a = k := by
  constructor
  · rintro ⟨h1, h2⟩
    rw [List.isPrefixOf_iff_prefix] at h1
    obtain ⟨t, rfl⟩ := h1
    simp at h2
    simp [h2]
  · rintro rfl
    simp [List.isPrefixOf_iff_prefix]

/-- Matching a single alternation segment against a whole key holds exactly
when the key is one of the alternatives. -/
theorem segsMatch_singleton_choice (allowed : List String) (d : List Char) :
    glob_matcher.segsMatch '/' [glob_matcher.Glob.Choice "" allowed] d = true ↔
      ∃ a ∈ allowed, a.data = d := by
  unfold glob_matcher.segsMatch
  have h1 : [glob_matcher.Glob.Choice "" allowed].length + d.length + 1
      = (d.length + 1) + 1 := by simp; omega
  rw [h1]
  simp only [glob_matcher.segsMatchF, List.any_eq_true, Bool.and_eq_true, List.isEmpty_iff]
  constructor
  · rintro ⟨a, ha, h2, h3⟩
    exact ⟨a, ha, (isPrefixOf_and_drop_nil a.data d).1 ⟨h2, h3⟩⟩
  · rintro ⟨a, ha, h⟩
    exact ⟨a, ha, ((isPrefixOf_and_drop_nil a.data d).2 h).1,
      ((isPrefixOf_and_drop_nil a.data d).2 h).2⟩

/-- C1: the claim states that is_match agrees with the anchored reference
regex of spec section 3, with a single star compiled to a run without the
delimiter.  The source is_match (glob_matcher.rs lines 277-279) delegates to
a globset matcher compiled with default options, under which a star also
matches the delimiter, so the two disagree: on pattern prefix/2024-asterisk
slash file..., the key with the extra nested component is accepted by
is_match but rejected by the reference regex (and the integration test
test_s3glob_pattern_matching expects it rejected).  This theorem exhibits the
divergence. -/
theorem c1_is_match_globset_vs_reference :
    globset.is_match "prefix/2024-*/file*.txt" "prefix/2024-03/nested/file3.txt" = some true
    ∧ glob_matcher.refIsMatchRaw "prefix/2024-*/file*.txt" "prefix/2024-03/nested/file3.txt"
        = some false
    ∧ glob_matcher.refIsMatchRaw "prefix/2024-*/file*.txt" "prefix/2024-01/file1.txt"
        = some true := by
  refine ⟨by decide, by decide, by decide⟩

/-- C2: covering failure of the planner.  For pattern star a slash b star c
over the one-key universe xa/byc, find_prefixes returns the empty prefix set
(the single-prefix simple-append branch appends the literal a/b to the
scanned prefix xa/ and the existence check discards it), although the key
matches the compiled pattern; so no returned element is a byte prefix of the
matching key. -/
theorem c2_find_prefixes_cover_violation :
    (glob_matcher.planRaw "*a/b*c" ["xa/byc"]).map (fun st => st.pfxs) = some []
    ∧ glob_matcher.refIsMatchRaw "*a/b*c" "xa/byc" = some true := by
  refine ⟨by decide, by decide⟩

/-- The chunk loop emits only BytesDownloaded notifications. -/
theorem writeChunks_no_obj (cs : List (Nat × Bool)) :
    ∀ x ∈ (download.writeChunks cs).1, download.isObjDl x = false := by
  induction cs with
  | nil => intro x hx; simp [download.writeChunks] at hx
  | cons c rest ih =>
    intro x hx
    obtain ⟨sz, ok⟩ := c
    simp only [download.writeChunks] at hx
    by_cases hok : ok = true
    · simp [hok] at hx
      rcases hx with rfl | hx
      · rfl
      · exact ih x hx
    · simp [Bool.eq_false_iff.2 hok] at hx

/-- The chunk loop emits no ObjectDownloaded notification. -/
theorem writeChunks_countObj (cs : List (Nat × Bool)) :
    (download.writeChunks cs).1.countP download.isObjDl = 0 := by
  rw [List.countP_eq_zero]
  intro a ha
  simp [writeChunks_no_obj cs a ha]

/-- Structure of the notification sequence: at most one ObjectDownloaded,
and its presence implies every step succeeded and it is the last event. -/
theorem runNotifs_spec (env : download.DlEnv) (path p : String) :
    (download.runNotifs env path).countP download.isObjDl ≤ 1
    ∧ (download.Notification.ObjectDownloaded p ∈ download.runNotifs env path →
        env.mkdirOk = true ∧ env.getOk = true ∧ env.createOk = true
        ∧ (download.writeChunks env.chunks).2 = true ∧ env.streamErr = false
        ∧ env.flushOk = true ∧ env.renameOk = true
        ∧ (download.runNotifs env path).getLast?
            = some (.ObjectDownloaded p)
        ∧ (download.runNotifs env path).countP download.isObjDl = 1) := by
  unfold download.runNotifs
  rcases hmk : env.mkdirOk with _ | _
  · exact ⟨by simp [hmk], fun hm => absurd hm (by simp [hmk])⟩
  rcases hget : env.getOk with _ | _
  · exact ⟨by simp [hmk, hget], fun hm => absurd hm (by simp [hmk, hget])⟩
  rcases hcr : env.createOk with _ | _
  · exact ⟨by simp [hmk, hget, hcr], fun hm => absurd hm (by simp [hmk, hget, hcr])⟩
  rcases hwr : (download.writeChunks env.chunks).2 with _ | _
  · refine ⟨by simp [hmk, hget, hcr, hwr, writeChunks_countObj], fun hm => ?_⟩
    simp only [hmk, hget, hcr, hwr] at hm
    simp at hm
    have := writeChunks_no_obj env.chunks _ hm
    simp [download.isObjDl] at this
  rcases hse : env.streamErr with _ | _
  case true.true.true.true.true =>
    refine ⟨by simp [hmk, hget, hcr, hwr, hse, writeChunks_countObj], fun hm => ?_⟩
    simp only [hmk, hget, hcr, hwr, hse] at hm
    simp at hm
    have := writeChunks_no_obj env.chunks _ hm
    simp [download.isObjDl] at this
  rcases hfl : env.flushOk with _ | _
  · refine ⟨by simp [hmk, hget, hcr, hwr, hse, hfl, writeChunks_countObj], fun hm => ?_⟩
    simp only [hmk, hget, hcr, hwr, hse, hfl] at hm
    simp at hm
    have := writeChunks_no_obj env.chunks _ hm
    simp [download.isObjDl] at this
  rcases hrn : env.renameOk with _ | _
  · refine ⟨by simp [hmk, hget, hcr, hwr, hse, hfl, hrn, writeChunks_countObj], fun hm => ?_⟩
    simp only [hmk, hget, hcr, hwr, hse, hfl, hrn] at hm
    simp at hm
    have := writeChunks_no_obj env.chunks _ hm
    simp [download.isObjDl] at this
  · have hcount : ((download.writeChunks env.chunks).1
        ++ [download.Notification.ObjectDownloaded path]).countP download.isObjDl = 1 := by
      rw [List.countP_append, writeChunks_countObj]
      simp [download.isObjDl]
    simp only [hmk, hget, hcr, hwr, hse, hfl, hrn]
    simp only [Bool.not_true, Bool.not_false, Bool.false_eq_true, not_false_eq_true,
      not_true_eq_false, ite_true, ite_false, if_neg, if_pos]
    refine ⟨by simp [hcount], fun hm => ?_⟩
    have hm' : download.Notification.ObjectDownloaded p
        ∈ (download.writeChunks env.chunks).1
          ++ [download.Notification.ObjectDownloaded path] := by
      simpa using hm
    rcases List.mem_append.1 hm' with hmm | hmm
    · have := writeChunks_no_obj env.chunks _ hmm
      simp [download.isObjDl] at this
    · simp only [List.mem_singleton, download.Notification.ObjectDownloaded.injEq] at hmm
      subst hmm
      refine ⟨trivial, trivial, trivial, trivial, trivial, trivial, trivial, ?_, by simpa using hcount⟩
      simp [List.getLast?_concat]

/-- C4: download_object emits ObjectDownloaded at most once, and an
ObjectDownloaded notification implies every earlier step (directory
creation, GET, file create, all chunk writes, stream end, flush, rename)
succeeded and the notification is the final one of the run; any earlier
failure ends the run without it. -/
theorem c4_object_downloaded_once_after_rename (dl : download.Downloader)
    (key : String) (env : download.DlEnv) (out : List download.Notification)
    (p : String) (h : download.download_object dl key env = some out) :
    out.countP download.isObjDl ≤ 1
    ∧ (download.Notification.ObjectDownloaded p ∈ out →
        env.mkdirOk = true ∧ env.getOk = true ∧ env.createOk = true
        ∧ (download.writeChunks env.chunks).2 = true ∧ env.streamErr = false
        ∧ env.flushOk = true ∧ env.renameOk = true
        ∧ out.getLast? = some (.ObjectDownloaded p)
        ∧ out.countP download.isObjDl = 1) := by
  unfold download.download_object at h
  cases hks : download.key_suffix? dl.prefix_to_strip key with
  | none => rw [hks] at h; exact absurd h (by simp)
  | some rel0 =>
    rw [hks] at h
    simp only [Option.some.injEq] at h
    subst h
    exact runNotifs_spec env _ p

/-- Witness for C4: a successful run with one three-byte chunk. -/
theorem c4_object_downloaded_once_after_rename_witness :
    download.download_object ⟨"pre/", false, "dest", 0⟩ "pre/a.txt"
        ⟨true, true, true, [(3, true)], false, true, true⟩
      = some [.BytesDownloaded 3, .ObjectDownloaded "dest/a.txt"]
    ∧ ([download.Notification.BytesDownloaded 3,
        .ObjectDownloaded "dest/a.txt"].countP download.isObjDl ≤ 1
      ∧ (download.Notification.ObjectDownloaded "dest/a.txt"
            ∈ [download.Notification.BytesDownloaded 3, .ObjectDownloaded "dest/a.txt"] →
          (true : Bool) = true ∧ (true : Bool) = true ∧ (true : Bool) = true
          ∧ (download.writeChunks [(3, true)]).2 = true ∧ (false : Bool) = false
          ∧ (true : Bool) = true ∧ (true : Bool) = true
          ∧ ([download.Notification.BytesDownloaded 3,
              .ObjectDownloaded "dest/a.txt"].getLast?
              = some (.ObjectDownloaded "dest/a.txt"))
          ∧ [download.Notification.BytesDownloaded 3,
              .ObjectDownloaded "dest/a.txt"].countP download.isObjDl = 1)) := by
  refine ⟨by decide, ?_⟩
  exact c4_object_downloaded_once_after_rename ⟨"pre/", false, "dest", 0⟩ "pre/a.txt"
    ⟨true, true, true, [(3, true)], false, true, true⟩
    [.BytesDownloaded 3, .ObjectDownloaded "dest/a.txt"] "dest/a.txt" (by decide)

/-- C5 counterexample: the temporary path is NOT the final local path with
the suffix .s3glob-tmp-id appended after the full file name.  The source uses
Path::with_extension, which drops the current extension: for final path
file1.txt and id 1 the temp path is file1..s3glob-tmp-1, not
file1.txt.s3glob-tmp-1. -/
theorem c5_temp_path_counterexample :
    download.temp_path "file1.txt" 1 = "file1..s3glob-tmp-1"
    ∧ download.temp_path "file1.txt" 1 ≠ "file1.txt" ++ ".s3glob-tmp-1" := by
  refine ⟨by decide, by decide⟩

/-- C6: each malformed class or alternation input is rejected by
parse_pattern (glob_matcher/glob.rs) with an error message that contains the
offending substring of the pattern. -/
theorem c6_parse_errors :
    glob.parse_patternS "\x7ba,b"
        = .error "Alternation has no closing brace (missing \x7d): \x7ba,b"
    ∧ glob.parse_patternS "[a-c"
        = .error "Alternation has no closing bracket (missing ]): [a-c"
    ∧ glob.parse_patternS "[]" = .error "Empty character class: []"
    ∧ glob.parse_patternS "[a-" = .error "Character class is not closed: [a-"
    ∧ glob.parse_patternS "[c-a]" = .error "Range is invalid (end <= start): c-a in [c-a"
    ∧ glob.errContains (glob.parse_patternS "\x7ba,b") "\x7ba,b" = true
    ∧ glob.errContains (glob.parse_patternS "[a-c") "[a-c" = true
    ∧ glob.errContains (glob.parse_patternS "[]") "[]" = true
    ∧ glob.errContains (glob.parse_patternS "[a-") "[a-" = true
    ∧ glob.errContains (glob.parse_patternS "[c-a]") "[c-a" = true := by
  refine ⟨rfl, rfl, rfl, rfl, rfl, by decide, by decide, by decide, by decide, by decide⟩

/-- C7: the class a-c parses to a choice whose alternatives are exactly the
one-character strings a, b, c in that order, the same alternatives as the
alternation of a, b and c, and under the matching oracle the resulting
alternation matches exactly the keys a, b and c. -/
theorem c7_range_expansion :
    glob.parse_patternS "[a-c]" = .ok (.Choice "[a-c]" ["a", "b", "c"])
    ∧ glob.parse_patternS "\x7ba,b,c\x7d" = .ok (.Choice "\x7ba,b,c\x7d" ["a", "b", "c"])
    ∧ ∀ k : String, glob.choiceOracle ["a", "b", "c"] k = true ↔
        (k = "a" ∨ k = "b" ∨ k = "c") := by
  refine ⟨rfl, rfl, fun k => ?_⟩
  unfold glob.choiceOracle
  rw [segsMatch_singleton_choice]
  constructor
  · rintro ⟨a, ha, h⟩
    have hk : a = k := by
      cases a; cases k; exact congrArg String.mk (by simpa using h)
    simp at ha
    rcases ha with rfl | rfl | rfl
    · exact Or.inl hk.symm
    · exact Or.inr (Or.inl hk.symm)
    · exact Or.inr (Or.inr hk.symm)
  · rintro (rfl | rfl | rfl)
    · exact ⟨"a", by simp⟩
    · exact ⟨"b", by simp⟩
    · exact ⟨"c", by simp⟩

/-- In the planner loop, a segment that is followed by at least one further
segment is processed as a non-last segment. -/
theorem planLoop_cons_ne_recursive (delim : Char) (store : List String)
    (part : glob_matcher.Glob) (rest : List glob_matcher.Glob)
    (prev : Option glob_matcher.Glob) (st : glob_matcher.PlanState)
    (h : part ≠ .Recursive) :
    glob_matcher.planLoop delim store (part :: rest) prev st
      = glob_matcher.planLoop delim store rest (some part)
          (glob_matcher.stepPart delim store part prev rest.isEmpty st) := by
  cases part with
  | Any r nt => rfl
  | Choice r a => rfl
  | Recursive => exact absurd rfl h

/-- C3 general half: when the segment list contains a Recursive segment, the
planner processes exactly the segments before it (none of which is last),
performs nothing for the Recursive segment or anything after it, and returns
that accumulated state marked incomplete. -/
theorem planLoop_recursive_halt (delim : Char) (store : List String)
    (pre post : List glob_matcher.Glob) (prev : Option glob_matcher.Glob)
    (st : glob_matcher.PlanState)
    (h : glob_matcher.Glob.Recursive ∉ pre) :
    glob_matcher.planLoop delim store (pre ++ .Recursive :: post) prev st
      = { glob_matcher.planMid delim store pre prev st with complete := false } := by
  induction pre generalizing prev st with
  | nil => rfl
  | cons p pre' ih =>
    have hp : p ≠ glob_matcher.Glob.Recursive := fun hh => h (hh ▸ List.mem_cons_self _ _)
    have hpre : glob_matcher.Glob.Recursive ∉ pre' := fun hh => h (List.mem_cons_of_mem _ hh)
    rw [List.cons_append, planLoop_cons_ne_recursive _ _ _ _ _ _ hp]
    have hne : (pre' ++ glob_matcher.Glob.Recursive :: post).isEmpty = false := by
      cases pre' <;> rfl
    rw [hne, ih _ _ hpre]
    rfl

/-- C3: when the planner reaches a Recursive segment it halts immediately,
returning the working prefix set accumulated over the earlier segments with
no store calls for the Recursive segment or any later one, and the plan is
marked not complete (the completeness flag itself is modelled from spec 4.3,
the old find_prefixes returns only the prefixes); concretely, planning
src/ double-star /test.rs over any store containing a key under src/ yields
exactly the prefix src/, zero delimited list calls, and an incomplete
plan. -/
theorem c3_recursive_halts :
    (∀ (delim : Char) (store : List String) (pre post : List glob_matcher.Glob)
        (prev : Option glob_matcher.Glob) (st : glob_matcher.PlanState),
      glob_matcher.Glob.Recursive ∉ pre →
      glob_matcher.planLoop delim store (pre ++ .Recursive :: post) prev st
        = { glob_matcher.planMid delim store pre prev st with complete := false })
    ∧ (∀ store : List String,
      store.any (fun k => ("src/").data.isPrefixOf k.data) = true →
      (glob_matcher.planRaw "src/**/test.rs" store).map
          (fun st => (st.pfxs, st.calls, st.complete))
        = some (["src/"], [], false)) := by
  refine ⟨fun delim store pre post prev st h =>
    planLoop_recursive_halt delim store pre post prev st h, fun store h => ?_⟩
  have hp : glob_matcher.S3GlobMatcher.parse "src/**/test.rs" '/'
      = .ok ⟨"src/**/test.rs", '/',
          [.Choice "src/" ["src/"], .Recursive, .Choice "/test.rs" ["/test.rs"]]⟩ := rfl
  simp only [glob_matcher.planRaw, hp, glob_matcher.S3GlobMatcher.find_prefixes]
  rw [show ([glob_matcher.Glob.Choice "src/" ["src/"], .Recursive,
      .Choice "/test.rs" ["/test.rs"]] : List glob_matcher.Glob)
      = [glob_matcher.Glob.Choice "src/" ["src/"]]
          ++ .Recursive :: [.Choice "/test.rs" ["/test.rs"]] from rfl]
  rw [planLoop_recursive_halt _ _ _ _ _ _ (by simp)]
  simp only [glob_matcher.planMid, glob_matcher.stepPart, glob_matcher.choiceStep,
    glob_matcher.initState]
  simp only [List.length_cons, List.length_nil, if_pos rfl, flatMapL, List.map]
  simp [glob_matcher.check_prefixes, glob_matcher.prefix_join, h]

/-- Witness for C3 at the store of the source test test_find_prefixes_recursive. -/
theorem c3_recursive_halts_witness :
    (glob_matcher.Glob.Recursive ∉ ([.Choice "src/" ["src/"]] : List glob_matcher.Glob))
    ∧ (["src/test.rs", "src/foo/test.rs", "src/foo/bar/test.rs", "src/other.rs"].any
        (fun k => ("src/").data.isPrefixOf k.data) = true)
    ∧ glob_matcher.planLoop '/' ["src/test.rs"]
        ([.Choice "src/" ["src/"]] ++ .Recursive :: ([] : List glob_matcher.Glob))
        none glob_matcher.initState
      = { glob_matcher.planMid '/' ["src/test.rs"] [.Choice "src/" ["src/"]]
            none glob_matcher.initState with complete := false }
    ∧ (glob_matcher.planRaw "src/**/test.rs"
          ["src/test.rs", "src/foo/test.rs", "src/foo/bar/test.rs", "src/other.rs"]).map
        (fun st => (st.pfxs, st.calls, st.complete))
      = some (["src/"], [], false) := by
  refine ⟨by decide, by decide, ?_, ?_⟩
  · exact c3_recursive_halts.1 '/' ["src/test.rs"] [.Choice "src/" ["src/"]] [] none
      glob_matcher.initState (by decide)
  · exact c3_recursive_halts.2
      ["src/test.rs", "src/foo/test.rs", "src/foo/bar/test.rs", "src/other.rs"] (by decide)

/-- An equality of distinct pool constructors is equivalent to any false
proposition. -/
theorem poolIffFalse {p : Prop} {k1 k2 : download.PoolKind} (hne : k1 ≠ k2)
    (hnp : ¬ p) : (k1 = k2 ↔ p) :=
  ⟨fun hh => absurd hh hne, fun hh => absurd hh hnp⟩

/-- C8: the download orchestrator routes objects by the exact size thresholds
of DlPools::download_object, and DlPools::new caps each pool at the minimum of
its default (500, 50, 10, 5) and max_parallelism, so no pool exceeds the
global cap. -/
theorem c8_pool_routing_caps :
    (∀ size : Int,
      (download.DlPools.download_object size = .two_hundred_kb ↔ size < 200000)
      ∧ (download.DlPools.download_object size = .one_mb ↔ 200000 ≤ size ∧ size < 1000000)
      ∧ (download.DlPools.download_object size = .ten_mb ↔ 1000000 ≤ size ∧ size < 10000000)
      ∧ (download.DlPools.download_object size = .more ↔ 10000000 ≤ size))
    ∧ (∀ mp : Nat,
      download.DlPools.cap .two_hundred_kb mp = min 500 mp
      ∧ download.DlPools.cap .one_mb mp = min 50 mp
      ∧ download.DlPools.cap .ten_mb mp = min 10 mp
      ∧ download.DlPools.cap .more mp = min 5 mp
      ∧ ∀ k, download.DlPools.cap k mp ≤ mp) := by
  constructor
  · intro size
    unfold download.DlPools.download_object
    by_cases h1 : size < 200000
    · simp only [if_pos h1]
      exact ⟨⟨fun _ => h1, fun _ => trivial⟩, poolIffFalse (by decide) (by omega),
        poolIffFalse (by decide) (by omega), poolIffFalse (by decide) (by omega)⟩
    by_cases h2 : size < 1000000
    · simp only [if_neg h1, if_pos h2]
      exact ⟨poolIffFalse (by decide) (by omega), ⟨fun _ => ⟨by omega, h2⟩, fun _ => trivial⟩,
        poolIffFalse (by decide) (by omega), poolIffFalse (by decide) (by omega)⟩
    by_cases h3 : size < 10000000
    · simp only [if_neg h1, if_neg h2, if_pos h3]
      exact ⟨poolIffFalse (by decide) (by omega), poolIffFalse (by decide) (by omega),
        ⟨fun _ => ⟨by omega, h3⟩, fun _ => trivial⟩, poolIffFalse (by decide) (by omega)⟩
    · simp only [if_neg h1, if_neg h2, if_neg h3]
      exact ⟨poolIffFalse (by decide) (by omega), poolIffFalse (by decide) (by omega),
        poolIffFalse (by decide) (by omega), ⟨fun _ => by omega, fun _ => trivial⟩⟩
  · intro mp
    refine ⟨by simp [download.DlPools.cap, Nat.min_comm], by simp [download.DlPools.cap, Nat.min_comm],
      by simp [download.DlPools.cap, Nat.min_comm], by simp [download.DlPools.cap, Nat.min_comm],
      fun k => ?_⟩
    cases k <;> simp [download.DlPools.cap]

/-- The remainder after reading a placeholder name is no longer than the
input. -/
theorem splitVar_snd_length (cs : List Char) :
    (mainmod.splitVar cs).2.length ≤ cs.length := by
  induction cs with
  | nil => simp [mainmod.splitVar]
  | cons c rest ih =>
    simp only [mainmod.splitVar]
    split_ifs with h
    · simp
    · simpa using Nat.le_succ_of_le ih

/-- compile_format succeeds exactly when every placeholder name is known, at
any sufficient fuel. -/
theorem compileCharsF_isOk (n : Nat) :
    ∀ (cs : List Char) (lit : List Char), cs.length < n →
      (mainmod.compileCharsF n cs lit).isOk
        = (mainmod.placeholderNamesF n cs).all (fun v => (mainmod.knownVar v).isSome) := by
  induction n with
  | zero => intro cs lit h; omega
  | succ n ih =>
    intro cs lit h
    cases cs with
    | nil =>
      simp only [mainmod.compileCharsF, mainmod.placeholderNamesF, List.all_nil]
      split_ifs <;> rfl
    | cons c rest =>
      simp only [mainmod.compileCharsF, mainmod.placeholderNamesF]
      by_cases hc : c = '\x7b'
      · simp only [if_pos hc]
        have hlen : (mainmod.splitVar rest).2.length < n := by
          have := splitVar_snd_length rest
          simp at h
          omega
        cases hkv : mainmod.knownVar (String.mk (mainmod.splitVar rest).1) with
        | none => simp [hkv, Except.isOk, Except.toBool]
        | some v =>
          simp only [hkv, List.all_cons, Option.isSome_some, Bool.true_and]
          rw [← ih _ [] hlen]
          cases hc2 : mainmod.compileCharsF n (mainmod.splitVar rest).2 [] <;>
            simp [Except.isOk, Except.toBool, hc2]
      · simp only [if_neg hc]
        exact ih rest (lit ++ [c]) (by simp at h ⊢; omega)

/-- C10: compile_format fails exactly when some placeholder name differs from
the five known variables; an unclosed placeholder at the end of the string is
not rejected: its name is read to the end, and for the known name key the
format compiles to the key variable, which format_user substitutes with the
object key. -/
theorem c10_compile_format_errors :
    (∀ f : String, (mainmod.compile_format f).isOk
        = (mainmod.placeholder_names f).all (fun v => (mainmod.knownVar v).isSome))
    ∧ mainmod.compile_format "\x7bkey" = .ok [.Variable .key]
    ∧ mainmod.compile_format "\x7bkex" = .error "unknown variable: kex"
    ∧ (∀ (sizeHuman : Int → String) (bucket : String) (o : mainmod.S3Object),
        mainmod.format_user sizeHuman bucket o [.Variable .key] = o.key) := by
  refine ⟨fun f => ?_, rfl, rfl, fun sizeHuman bucket o => ?_⟩
  · exact compileCharsF_isOk (f.data.length + 1) f.data [] (by omega)
  · simp [mainmod.format_user, mainmod.renderVar]

/-- String append acts as list append on the underlying characters. -/
theorem strApp_data (a b : String) : (a ++ b).data = a.data ++ b.data := by
  cases a; cases b; rfl

/-- A string is its character list repackaged. -/
theorem strMk_data (a : String) : String.mk a.data = a := by
  cases a; rfl

/-- takeWhile keeps a list all of whose elements satisfy the predicate. -/
theorem takeWhile_eq_self_of_all (p : Char → Bool) (l : List Char)
    (h : ∀ a ∈ l, p a = true) : l.takeWhile p = l := by
  induction l with
  | nil => rfl
  | cons c rest ih =>
    simp [List.takeWhile_cons, h c (List.mem_cons_self _ _), ih
      (fun a ha => h a (List.mem_cons_of_mem _ ha))]

/-- takeWhile stops exactly at the first failing element. -/
theorem takeWhile_all_append (p : Char → Bool) (l1 : List Char) (c : Char) (l2 : List Char)
    (h1 : ∀ a ∈ l1, p a = true) (hc : p c = false) :
    (l1 ++ c :: l2).takeWhile p = l1 := by
  induction l1 with
  | nil => simp [List.takeWhile_cons, hc]
  | cons a rest ih =>
    simp [List.cons_append, List.takeWhile_cons, h1 a (List.mem_cons_self _ _),
      ih (fun x hx => h1 x (List.mem_cons_of_mem _ hx))]

/-- Dropping one past the left block of an append lands after the pivot. -/
theorem drop_append_cons (l1 : List Char) (c : Char) (l2 : List Char) :
    (l1 ++ c :: l2).drop (l1.length + 1) = l2 := by
  induction l1 with
  | nil => simp
  | cons a rest ih => simp [ih]

/-- The ids handed out by successive fresh calls are the consecutive
integers after the counter. -/
theorem freshIds_eq_range' (c n : Nat) : download.freshIds c n = List.range' (c + 1) n := by
  induction n generalizing c with
  | zero => rfl
  | succ n ih => simp [download.freshIds, download.add_atomic, List.range', ih]

/-- Every id handed out is above the starting counter. -/
theorem freshIds_mem_gt (n : Nat) :
    ∀ (c : Nat), ∀ x ∈ download.freshIds c n, c < x := by
  induction n with
  | zero => intro c x hx; simp [download.freshIds] at hx
  | succ n ih =>
    intro c x hx
    simp only [download.freshIds, download.add_atomic, List.mem_cons] at hx
    rcases hx with rfl | hx
    · omega
    · have := ih (c + 1) x hx
      omega

/-- The ids are strictly increasing in hand-out order. -/
theorem freshIds_pairwise (n : Nat) :
    ∀ c : Nat, (download.freshIds c n).Pairwise (· < ·) := by
  induction n with
  | zero => intro c; simp [download.freshIds]
  | succ n ih =>
    intro c
    simp only [download.freshIds, download.add_atomic]
    exact List.Pairwise.cons (fun x hx => freshIds_mem_gt n (c + 1) x hx) (ih (c + 1))

/-- C5 amended: the temporary path is the final path with its extension
replaced by the string .s3glob-tmp-id (so the name gains a double dot and
loses the original extension), it differs from the claimed appended form,
and the ids handed out by successive fresh calls are the strictly increasing
consecutive integers from one, hence pairwise distinct. -/
theorem c5_temp_path_amended (stem ext : String) (id n : Nat)
    (h1 : stem.data ≠ []) (_h2 : '.' ∉ stem.data) (h3 : '/' ∉ stem.data)
    (h4 : ext.data ≠ []) (h5 : '.' ∉ ext.data) (h6 : '/' ∉ ext.data) :
    download.temp_path (stem ++ "." ++ ext) id
      = stem ++ "..s3glob-tmp-" ++ toString id
    ∧ download.temp_path (stem ++ "." ++ ext) id
        ≠ (stem ++ "." ++ ext) ++ (".s3glob-tmp-" ++ toString id)
    ∧ download.freshIds 0 n = List.range' 1 n
    ∧ (download.freshIds 0 n).Pairwise (· < ·)
    ∧ (download.freshIds 0 n).Nodup := by
  have hdata : (stem ++ "." ++ ext).data = stem.data ++ '.' :: ext.data := by
    simp [strApp_data]
  have hrev : (stem ++ "." ++ ext).data.reverse
      = ext.data.reverse ++ '.' :: stem.data.reverse := by
    simp [hdata]
  have hsplit : download.splitLastSlash (stem ++ "." ++ ext).data
      = ([], (stem ++ "." ++ ext).data) := by
    unfold download.splitLastSlash
    have hall : ∀ a ∈ (stem ++ "." ++ ext).data.reverse, (decide (a ≠ '/')) = true := by
      intro a ha
      rw [hrev] at ha
      simp only [List.mem_append, List.mem_reverse, List.mem_cons] at ha
      rcases ha with ha | rfl | ha
      · simp; rintro rfl; exact h6 ha
      · simp
      · simp; rintro rfl; exact h3 ha
    rw [takeWhile_eq_self_of_all _ _ hall]
    simp
    omega
  have hstem : download.file_stem (stem ++ "." ++ ext).data = stem.data := by
    unfold download.file_stem
    have hext : (stem ++ "." ++ ext).data.reverse.takeWhile (fun c => decide (c ≠ '.'))
        = ext.data.reverse := by
      rw [hrev]
      refine takeWhile_all_append _ _ _ _ (fun a ha => ?_) (by simp)
      simp
      rintro rfl
      exact h5 (List.mem_reverse.1 ha)
    rw [hext]
    have hlen : ext.data.reverse.length ≠ (stem ++ "." ++ ext).data.length := by
      simp [hdata]
      have := List.length_pos.2 h1
      omega
    rw [if_neg hlen]
    have hdrop : (stem ++ "." ++ ext).data.reverse.drop (ext.data.reverse.length + 1)
        = stem.data.reverse := by
      rw [hrev, List.length_reverse, ← List.length_reverse ext.data]
      exact drop_append_cons _ _ _
    rw [hdrop]
    rw [if_neg (by simp [h1])]
    simp
  have heq : download.temp_path (stem ++ "." ++ ext) id
      = stem ++ "..s3glob-tmp-" ++ toString id := by
    unfold download.temp_path download.with_extension
    rw [hsplit]
    simp only [List.nil_append]
    rw [hstem, strMk_data]
    rw [if_neg (by simp [strApp_data])]
    rw [show ("." : String) ++ (".s3glob-tmp-" ++ toString id)
        = "..s3glob-tmp-" ++ toString id by rw [← String.append_assoc]; rfl]
    rw [String.append_assoc]
  refine ⟨heq, ?_, freshIds_eq_range' 0 n, freshIds_pairwise n 0,
    List.Pairwise.imp (fun h => Nat.ne_of_lt h) (freshIds_pairwise n 0)⟩
  rw [heq]
  intro hbad
  have hlen := congrArg (fun s => s.data.length) hbad
  simp only [strApp_data, List.length_append, hdata] at hlen
  have l13 : ("..s3glob-tmp-" : String).data.length = 13 := rfl
  have l12 : (".s3glob-tmp-" : String).data.length = 12 := rfl
  have hpos : 0 < ext.data.length := List.length_pos.2 h4
  simp only [l13, l12, List.length_cons] at hlen
  omega

/-- Witness for C5 amended, at stem file1, extension txt, id 7, three fresh
calls. -/
theorem c5_temp_path_amended_witness :
    (("file1" : String).data ≠ [] ∧ '.' ∉ ("file1" : String).data
      ∧ '/' ∉ ("file1" : String).data ∧ ("txt" : String).data ≠ []
      ∧ '.' ∉ ("txt" : String).data ∧ '/' ∉ ("txt" : String).data)
    ∧ (download.temp_path ("file1" ++ "." ++ "txt") 7
        = "file1" ++ "..s3glob-tmp-" ++ toString 7
      ∧ download.temp_path ("file1" ++ "." ++ "txt") 7
          ≠ ("file1" ++ "." ++ "txt") ++ (".s3glob-tmp-" ++ toString 7)
      ∧ download.freshIds 0 3 = List.range' 1 3
      ∧ (download.freshIds 0 3).Pairwise (· < ·)
      ∧ (download.freshIds 0 3).Nodup) := by
  refine ⟨⟨by decide, by decide, by decide, by decide, by decide, by decide⟩, ?_⟩
  exact c5_temp_path_amended "file1" "txt" 7 3 (by decide) (by decide) (by decide)
    (by decide) (by decide) (by decide)

/-- prefix_join keeps its left argument as a prefix. -/
theorem prefix_join_data (a b : String) :
    ∃ t, (glob_matcher.prefix_join a b).data = a.data ++ t := by
  unfold glob_matcher.prefix_join
  split_ifs with h
  · exact ⟨(String.mk (b.data.drop 1)).data, strApp_data _ _⟩
  · exact ⟨b.data, strApp_data _ _⟩

/-- When the pattern text begins with a nonempty literal run, the parsed
segment list begins with the corresponding one-choice part. -/
theorem parsePartsF_head (n : Nat) (cs : List Char) (ps : List glob_matcher.Glob)
    (h : glob_matcher.parsePartsF n cs = .ok ps)
    (hlit : cs.takeWhile (fun c => ¬ GLOB_CHARS.contains c) ≠ []) :
    ∃ tail, ps = .Choice (String.mk (cs.takeWhile (fun c => ¬ GLOB_CHARS.contains c)))
        [String.mk (cs.takeWhile (fun c => ¬ GLOB_CHARS.contains c))] :: tail := by
  cases n with
  | zero => exact absurd h (by simp [glob_matcher.parsePartsF])
  | succ n =>
    cases cs with
    | nil => exact absurd hlit (by simp)
    | cons c rest =>
      simp only [glob_matcher.parsePartsF] at h
      by_cases hre : ((c :: rest).drop
          ((c :: rest).takeWhile (fun c => ¬ GLOB_CHARS.contains c)).length).isEmpty
      · rw [if_pos hre] at h
        exact ⟨[], by simpa using h.symm⟩
      · rw [if_neg hre] at h
        cases hpp : glob_matcher.parse_pattern ((c :: rest).drop
            ((c :: rest).takeWhile (fun c => ¬ GLOB_CHARS.contains c)).length) with
        | error e => rw [hpp] at h; exact absurd h (by simp)
        | ok g =>
          rw [hpp] at h
          dsimp only at h
          cases hrec : glob_matcher.parsePartsF n (((c :: rest).drop
              ((c :: rest).takeWhile (fun c => ¬ GLOB_CHARS.contains c)).length).drop
                g.pattern_len) with
          | error e => rw [hrec] at h; exact absurd h (by simp)
          | ok parts =>
            rw [hrec] at h
            dsimp only at h
            simp only [Option.some.injEq, Except.ok.injEq] at h
            rw [if_neg (by simpa using hlit)] at h
            exact ⟨g :: parts, h.symm⟩

/-- Every element of the cross-product join keeps the shared literal as a
prefix. -/
theorem flatMap_join_prefix (l : List Char) (a2 : List String) :
    ∀ allowed : List String, (∀ a ∈ allowed, l <+: a.data) →
      ∀ x ∈ flatMapL (fun c => a2.map (fun alt => glob_matcher.prefix_join c alt)) allowed,
        l <+: x.data := by
  intro allowed
  induction allowed with
  | nil => intro _ x hx; simp [flatMapL] at hx
  | cons c0 cr ihc =>
    intro hall x hx
    simp only [flatMapL, List.mem_append] at hx
    rcases hx with hx | hx
    · simp only [List.mem_map] at hx
      obtain ⟨alt, _, rfl⟩ := hx
      obtain ⟨t, ht⟩ := prefix_join_data c0 alt
      rw [ht]
      exact (hall c0 (List.mem_cons_self _ _)).trans (List.prefix_append _ _)
    · exact ihc (fun a hmem => hall a (List.mem_cons_of_mem _ hmem)) x hx

/-- Merging preserves the head alternatives all starting with the literal. -/
theorem mergePartsF_head (l : List Char) (n : Nat) :
    ∀ (r : String) (allowed : List String) (rest : List glob_matcher.Glob),
      (∀ a ∈ allowed, l <+: a.data) →
      ∃ r' allowed' tl,
        glob_matcher.mergePartsF n (.Choice r allowed :: rest) = .Choice r' allowed' :: tl
        ∧ ∀ a ∈ allowed', l <+: a.data := by
  induction n with
  | zero => intro r allowed rest hall; exact ⟨r, allowed, rest, rfl, hall⟩
  | succ n ih =>
    intro r allowed rest hall
    cases rest with
    | nil => exact ⟨r, allowed, [], rfl, hall⟩
    | cons g2 rest' =>
      cases g2 with
      | Choice r2 a2 =>
        have hall' := flatMap_join_prefix l a2 allowed hall
        have hstep : glob_matcher.mergePartsF (n + 1)
            (.Choice r allowed :: .Choice r2 a2 :: rest')
            = glob_matcher.mergePartsF n
                (.Choice r (flatMapL (fun c => a2.map
                  (fun alt => glob_matcher.prefix_join c alt)) allowed) :: rest') := by
          rfl
        rw [hstep]
        exact ih r _ rest' hall'
      | Any r2 nt =>
        exact ⟨r, allowed, _, rfl, hall⟩
      | Recursive =>
        exact ⟨r, allowed, _, rfl, hall⟩

/-- A match of a segment list headed by a choice starts with one of its
alternatives. -/
theorem segsMatch_cons_choice (delim : Char) (r : String) (allowed : List String)
    (rest : List glob_matcher.Glob) (s : List Char)
    (h : glob_matcher.segsMatch delim (.Choice r allowed :: rest) s = true) :
    ∃ a ∈ allowed, a.data <+: s := by
  unfold glob_matcher.segsMatch at h
  rw [show (glob_matcher.Glob.Choice r allowed :: rest).length + s.length + 1
      = (rest.length + s.length + 1) + 1 by simp; omega] at h
  simp only [glob_matcher.segsMatchF, List.any_eq_true, Bool.and_eq_true] at h
  obtain ⟨a, ha, h1, _⟩ := h
  exact ⟨a, ha, List.isPrefixOf_iff_prefix.1 h1⟩

/-- A key matched by a parsed pattern starts with the literal run that opens
the pattern. -/
theorem refMatch_head_lit (raw k : String) (m : glob_matcher.S3GlobMatcher)
    (hp : glob_matcher.S3GlobMatcher.parse raw '/' = .ok m)
    (hm : m.refIsMatch k = true) :
    raw.data.takeWhile (fun c => ¬ GLOB_CHARS.contains c) <+: k.data := by
  by_cases hlit : raw.data.takeWhile (fun c => ¬ GLOB_CHARS.contains c) = []
  · rw [hlit]; exact List.nil_prefix
  · unfold glob_matcher.S3GlobMatcher.parse at hp
    cases hps : glob_matcher.parsePartsF (raw.data.length + 1) raw.data with
    | error e => rw [hps] at hp; exact absurd hp (by simp)
    | ok ps =>
      rw [hps] at hp
      simp only [Except.ok.injEq] at hp
      obtain ⟨tail, rfl⟩ := parsePartsF_head _ _ _ hps hlit
      obtain ⟨r', allowed', tl, hmerge, hall⟩ :=
        mergePartsF_head (raw.data.takeWhile (fun c => ¬ GLOB_CHARS.contains c))
          ((glob_matcher.Glob.Choice
              (String.mk (raw.data.takeWhile (fun c => ¬ GLOB_CHARS.contains c)))
              [String.mk (raw.data.takeWhile (fun c => ¬ GLOB_CHARS.contains c))] :: tail).length
            + 1)
          (String.mk (raw.data.takeWhile (fun c => ¬ GLOB_CHARS.contains c)))
          [String.mk (raw.data.takeWhile (fun c => ¬ GLOB_CHARS.contains c))] tail
          (by intro a ha; simp only [List.mem_singleton] at ha; subst ha
              exact List.prefix_refl _)
      have hm' : glob_matcher.segsMatch '/' (.Choice r' allowed' :: tl) k.data = true := by
        have hthis := hm
        unfold glob_matcher.S3GlobMatcher.refIsMatch at hthis
        rw [← hp] at hthis
        dsimp only at hthis
        rw [hmerge] at hthis
        exact hthis
      obtain ⟨a, ha, hpre⟩ := segsMatch_cons_choice '/' r' allowed' tl k.data hm'
      exact (hall a ha).trans hpre

/-- commonPre is a prefix of its left argument. -/
theorem commonPre_prefix_left (a b : List Char) : commonPre a b <+: a := by
  induction a generalizing b with
  | nil => cases b <;> simp [commonPre]
  | cons x xs ih =>
    cases b with
    | nil => simp [commonPre]
    | cons y ys =>
      simp only [commonPre]
      split_ifs with h
      · exact List.cons_prefix_cons.2 ⟨rfl, ih ys⟩
      · exact List.nil_prefix

/-- commonPre is a prefix of its right argument. -/
theorem commonPre_prefix_right (a b : List Char) : commonPre a b <+: b := by
  induction a generalizing b with
  | nil => cases b <;> simp [commonPre]
  | cons x xs ih =>
    cases b with
    | nil => simp [commonPre]
    | cons y ys =>
      simp only [commonPre]
      split_ifs with h
      · subst h; exact List.cons_prefix_cons.2 ⟨rfl, ih ys⟩
      · exact List.nil_prefix

/-- The longest-common-prefix fold shrinks its accumulator. -/
theorem foldCommon_prefix_acc (rest : List String) :
    ∀ acc : List Char, rest.foldl (fun a k => commonPre a k.data) acc <+: acc := by
  induction rest with
  | nil => intro acc; exact List.prefix_refl _
  | cons r rest' ih =>
    intro acc
    exact (ih (commonPre acc r.data)).trans (commonPre_prefix_left _ _)

/-- The longest-common-prefix fold result is a prefix of every folded key. -/
theorem foldCommon_prefix_mem (rest : List String) :
    ∀ (acc : List Char) (j : String), j ∈ rest →
      rest.foldl (fun a k => commonPre a k.data) acc <+: j.data := by
  induction rest with
  | nil => intro acc j hj; simp at hj
  | cons r rest' ih =>
    intro acc j hj
    rcases List.mem_cons.1 hj with rfl | hj
    · exact (foldCommon_prefix_acc rest' (commonPre acc j.data)).trans
        (commonPre_prefix_right _ _)
    · exact ih (commonPre acc r.data) j hj

/-- C9: for every path mode, every pattern and every key matched by the
compiled pattern (belonging to the matched key set handed to the shortest
mode), the prefix computed by extract_prefix_to_strip is a byte prefix of
the key, so the strip_prefix call of download_object succeeds and its expect
panic branch is unreachable. -/
theorem c9_prefix_to_strip_covers (raw k : String) (ks : List String)
    (m : glob_matcher.S3GlobMatcher) (mode : download.PathMode)
    (hp : glob_matcher.S3GlobMatcher.parse raw '/' = .ok m)
    (hm : m.refIsMatch k = true) (hk : k ∈ ks) :
    (download.extract_prefix_to_strip raw mode ks).data.isPrefixOf k.data = true
    ∧ (download.key_suffix? (download.extract_prefix_to_strip raw mode ks) k).isSome
        = true := by
  have main : (download.extract_prefix_to_strip raw mode ks).data <+: k.data := by
    cases mode with
    | Abs => exact List.nil_prefix
    | Absolute => exact List.nil_prefix
    | G | FromFirstGlob =>
      have hhead := refMatch_head_lit raw k m hp hm
      simp only [download.extract_prefix_to_strip]
      split_ifs with h
      · exact (List.take_prefix _ _).trans hhead
      · exact hhead
    | S | Shortest =>
      cases ks with
      | nil => simp at hk
      | cons k0 rest =>
        simp only [download.extract_prefix_to_strip]
        have hlcp : rest.foldl (fun a j => commonPre a j.data) k0.data <+: k.data := by
          rcases List.mem_cons.1 hk with rfl | hk'
          · exact foldCommon_prefix_acc rest k.data
          · exact foldCommon_prefix_mem rest k0.data k hk'
        exact (List.take_prefix _ _).trans hlcp
  have hb : (download.extract_prefix_to_strip raw mode ks).data.isPrefixOf k.data = true :=
    List.isPrefixOf_iff_prefix.2 main
  refine ⟨hb, ?_⟩
  unfold download.key_suffix?
  rw [if_pos hb]
  rfl

/-- Witness for C9 at the concrete pattern and matched key set of the spec
seed suite, mode shortest. -/
theorem c9_prefix_to_strip_covers_witness :
    (glob_matcher.S3GlobMatcher.parse "prefix/2024-*/file*.txt" '/'
        = .ok ⟨"prefix/2024-*/file*.txt", '/',
            [.Choice "prefix/2024-" ["prefix/2024-"], .Any "*" none,
             .Choice "/file" ["/file"], .Any "*" none, .Choice ".txt" [".txt"]]⟩
      ∧ (glob_matcher.S3GlobMatcher.refIsMatch
          ⟨"prefix/2024-*/file*.txt", '/',
            [.Choice "prefix/2024-" ["prefix/2024-"], .Any "*" none,
             .Choice "/file" ["/file"], .Any "*" none, .Choice ".txt" [".txt"]]⟩
          "prefix/2024-01/file1.txt") = true
      ∧ "prefix/2024-01/file1.txt"
          ∈ ["prefix/2024-01/file1.txt", "prefix/2024-02/file2.txt"])
    ∧ ((download.extract_prefix_to_strip "prefix/2024-*/file*.txt" .Shortest
          ["prefix/2024-01/file1.txt", "prefix/2024-02/file2.txt"]).data.isPrefixOf
            ("prefix/2024-01/file1.txt" : String).data = true
      ∧ (download.key_suffix?
          (download.extract_prefix_to_strip "prefix/2024-*/file*.txt" .Shortest
            ["prefix/2024-01/file1.txt", "prefix/2024-02/file2.txt"])
          "prefix/2024-01/file1.txt").isSome = true) := by
  refine ⟨⟨rfl, by decide, by decide⟩, ?_⟩
  exact c9_prefix_to_strip_covers "prefix/2024-*/file*.txt" "prefix/2024-01/file1.txt"
    ["prefix/2024-01/file1.txt", "prefix/2024-02/file2.txt"]
    ⟨"prefix/2024-*/file*.txt", '/',
      [.Choice "prefix/2024-" ["prefix/2024-"], .Any "*" none,
       .Choice "/file" ["/file"], .Any "*" none, .Choice ".txt" [".txt"]]⟩
    .Shortest rfl (by decide) (by decide)

end S3Glob
